import Mathlib

/-!
Verification development for the search-result component of
`tuenti/mkdocs-material` (file
`src/assets/javascripts/components/Material/Search/Result.jsx`,
with the evolutionary variants kept alongside it).

The JavaScript is shallowly embedded: strings are lists of characters
(JS strings indexed by position), `undefined`-able values are `Option`s,
a JS property access on a possibly-`undefined` object is an `Except`
that errors like the runtime `TypeError`, and the stateful update cycle
is explicit state passing.
-/

namespace MkdocsResult

/-! ## The `truncate` helper (Result.jsx lines 73-80)

```js
const truncate = (string, n) => {
  let i = n
  if (string.length > i) {
    while (string[i] !== " " && --i > 0);
    return `${string.substring(0, i)}...`
  }
  return string
}
```

`truncIndex s n` is the value of `i` when the `while` loop exits, as an
integer: the loop tests `string[i] !== " "` and only afterwards
pre-decrements, so starting at `i = 1` it exits with `i = 0` without
ever testing `string[0]`, and starting at `i = 0` it exits with
`i = -1` when `string[0]` is not a space.  `substring(0, i)` clamps a
negative bound to `0`, which `Int.toNat` reproduces. -/

/-- The loop test `string[i] !== " "` negated: position `j` of `s` holds a
space character. -/
def spaceAt (s : List Char) (j : Nat) : Prop := s[j]? = some ' '

instance (s : List Char) : DecidablePred (spaceAt s) := fun j =>
  inferInstanceAs (Decidable (s[j]? = some ' '))

def truncIndex (s : List Char) : Nat → Int
  | 0 => if spaceAt s 0 then 0 else -1
  | 1 => if spaceAt s 1 then 1 else 0
  | (n+2) => if spaceAt s (n+2) then ((n : Int) + 2) else truncIndex s (n+1)

def ellipsis : List Char := ['.', '.', '.']

def truncate (s : List Char) (n : Nat) : List Char :=
  if n < s.length then s.take (truncIndex s n).toNat ++ ellipsis else s

/-! ## Engine hit structures (Result.jsx, stage-1/stage-2 responses)

A hit carries `_source` fields and an optional `highlight` object whose
`title` and `text` members are optional arrays of marked-up fragments.
`highlight` itself is absent when the engine matched no highlighted field,
which the data model permits; a JS property access on the absent object
throws a `TypeError`, modelled as `Except.error "TypeError"`. -/

structure Highlight where
  title : Option (List String)
  text : Option (List String)
deriving DecidableEq

structure DocHit where
  id : String
  title : String
  location : String
  highlight : Option Highlight
deriving DecidableEq

structure SectionHit where
  title : String
  location : String
  text : String
  highlight : Option Highlight
deriving DecidableEq

/-! ## Stage-2 size hint and msearch body (Result.jsx lines 277-339)

```js
var size = 0
if (hit.highlight.title) { size += hit.highlight.title.length }
if (hit.highlight.text) { size += hit.highlight.text.length }
```

The reads `hit.highlight.title` and `hit.highlight.text` are performed
without first checking `hit.highlight`; a JS empty array is truthy and
contributes length 0, so present-but-empty fragment arrays behave like the
`some` branch below. -/

def sizeHint (hit : DocHit) : Except String Nat :=
  match hit.highlight with
  | none => Except.error "TypeError"
  | some hl =>
      Except.ok ((match hl.title with | some a => a.length | none => 0) +
        (match hl.text with | some a => a.length | none => 0))

/-- Document title line (lines 352-355): `hit._source.title`, replaced by
`hit.highlight.title[0]` when the highlight array is truthy.  `[0]` on an
empty (truthy) array is `undefined`, modelled by `List.head?`. -/
def docTitleStr (hit : DocHit) : Except String (Option String) :=
  match hit.highlight with
  | none => Except.error "TypeError"
  | some hl =>
      match hl.title with
      | none => Except.ok (some hit.title)
      | some frags => Except.ok frags.head?

/-- The claim-relevant parts of one stage-2 section query: the `parent_id`
scoping id and the `size` hint computed from the parent document hit. -/
structure SectionQuery where
  parentId : String
  size : Nat
deriving DecidableEq

def sectionQueryFor (hit : DocHit) : Except String SectionQuery :=
  match sizeHint hit with
  | Except.error e => Except.error e
  | Except.ok sz => Except.ok { parentId := hit.id, size := sz }

/-- `result.forEach` building `msearch_body`: processed in order, the first
hit whose `highlight` is absent throws out of the whole callback. -/
def buildMsearchBody : List DocHit → Except String (List SectionQuery)
  | [] => Except.ok []
  | hit :: rest =>
    match sectionQueryFor hit with
    | Except.error e => Except.error e
    | Except.ok q =>
      match buildMsearchBody rest with
      | Except.error e => Except.error e
      | Except.ok qs => Except.ok (q :: qs)

/-- Two entries (index header and query body) are pushed per hit. -/
def msearchBodyLen (hits : List DocHit) : Nat := 2 * hits.length

/-- The stage-2 msearch call is guarded by `if (msearch_body.length > 0)`
(lines 340-343). -/
def stage2Issued (hits : List DocHit) : Bool := decide (0 < msearchBodyLen hits)

/-! ## Document teaser selection (Result.jsx lines 357-365)

```js
var teaserHighlight = ""
section_hit.hits.hits.forEach((section_obj) => {
  if (section_obj._source.title == result[index]._source.title) {
    if (section_obj.highlight.text) {
      teaserHighlight = section_obj.highlight.text[0]
    }
  }
})
```

The accumulator starts as the empty string and is overwritten by every
matching section that carries a truthy `highlight.text`; the loop result is
`Option String` where `none` models `undefined` (from `[0]` on an empty
truthy array). -/

def teaserLoop (docTitle : String) (acc : Option String) :
    List SectionHit → Except String (Option String)
  | [] => Except.ok acc
  | s :: rest =>
    if s.title = docTitle then
      match s.highlight with
      | none => Except.error "TypeError"
      | some hl =>
        match hl.text with
        | none => teaserLoop docTitle acc rest
        | some frags => teaserLoop docTitle frags.head? rest
    else teaserLoop docTitle acc rest

def pickTeaser (docTitle : String) (sections : List SectionHit) :
    Except String (Option String) :=
  teaserLoop docTitle (some "") sections

/-- A section whose title equals the document's title and which carries a
highlighted text fragment array. -/
def matchWithFragment (docTitle : String) (s : SectionHit) : Bool :=
  (s.title == docTitle) && (s.highlight.bind Highlight.text).isSome

/-- Modelled from the amended claim's words: among sections whose title
equals the document's title and which carry a highlighted text fragment, the
last one encountered in the engine's document order wins, and its first
fragment becomes the teaser; with no such section the teaser stays the empty
string. -/
def lastMatchingTeaser (docTitle : String) (sections : List SectionHit) :
    Option String :=
  match sections.reverse.find? (matchWithFragment docTitle) with
  | none => some ""
  | some s => ((s.highlight.bind Highlight.text).getD []).head?

/-- Concrete sections for the teaser counterexample: both titled `"Intro"`,
both carrying a highlighted text fragment. -/
def introSecA : SectionHit :=
  { title := "Intro", location := "la", text := "ta",
    highlight := some { title := none, text := some ["A"] } }

def introSecB : SectionHit :=
  { title := "Intro", location := "lb", text := "tb",
    highlight := some { title := none, text := some ["B"] } }

/-! ## Render units and aggregation (Result.jsx lines 349-416)

`section_result.forEach((section_hit, index) => ...)` builds, for the
document at position `index`, one article node and one deferred renderer per
section hit of batch `index`, then pushes the article renderer followed by
the section renderers onto the stack (line 415:
`stack_.push(() => list_.appendChild(article), ...sections)`). A render unit
is identified by its document position and, for sections, the section's
position within its batch. -/

inductive RUnit where
  | doc (i : Nat)
  | sec (i j : Nat)
deriving DecidableEq

def aggFrom (i0 : Nat) : List (List SectionHit) → List RUnit
  | [] => []
  | b :: bs =>
      RUnit.doc i0 ::
        ((List.range b.length).map (RUnit.sec i0) ++ aggFrom (i0+1) bs)

def aggregate (batches : List (List SectionHit)) : List RUnit :=
  aggFrom 0 batches

/-- Modelled from the spec's words: for each document hit, in stage-1 order,
exactly one document unit followed by that document's section units in
stage-2 response order. -/
def aggregateSpec (batches : List (List SectionHit)) : List RUnit :=
  (List.range batches.length).flatMap
    (fun i =>
      RUnit.doc i ::
        (List.range (batches.getD i []).length).map (RUnit.sec i))

/-! ## Scroll container geometry and the two drain paths -/

/-- The scroll container's geometry, in JS pixel units. -/
structure Container where
  scrollTop : Int
  offsetHeight : Int
  scrollHeight : Int
deriving DecidableEq

/-- Executing a render unit appends one node to the list, growing the
container's scrollable height by that node's height. -/
def renderStep {α : Type} (height : α → Int) (c : Container) (u : α) :
    Container :=
  { c with scrollHeight := c.scrollHeight + height u }

/-- Eager drain guard (line 422):
`container.offsetHeight >= container.scrollHeight - 16`. -/
def eagerCond (c : Container) : Bool :=
  decide (c.offsetHeight ≥ c.scrollHeight - 16)

/-- Lazy drain guard (lines 239-240):
`container.scrollTop + container.offsetHeight >= container.scrollHeight - 16`. -/
def lazyCond (c : Container) : Bool :=
  decide (c.scrollTop + c.offsetHeight ≥ c.scrollHeight - 16)

/-- Eager drain (lines 421-423): while the stack is non-empty and the guard
holds, shift the head unit off the stack and execute it.  Returns the
executed units in order, the remaining stack, and the final geometry. -/
def eagerDrain {α : Type} (height : α → Int) :
    List α → Container → List α × List α × Container
  | [], c => ([], [], c)
  | u :: rest, c =>
    if eagerCond c then
      let r := eagerDrain height rest (renderStep height c u)
      (u :: r.1, r.2.1, r.2.2)
    else ([], u :: rest, c)

/-- Lazy drain loop body (lines 238-242): while the stack is non-empty and
the guard holds, `splice(0, 10)` the first ten units off the stack and
execute them in order; the guard is re-checked only between batches, so one
scroll event can execute several batches.  `fuel` bounds the number of loop
iterations; each iteration removes at least one unit, so `st.length`
iterations always suffice and the zero-fuel clause is unreachable from
`lazyDrain` (the lemmas below assume `st.length ≤ fuel`). -/
def lazyDrainAux {α : Type} (height : α → Int) :
    Nat → List α → Container → List α × List α × Container
  | 0, st, c => ([], st, c)
  | _+1, [], c => ([], [], c)
  | fuel+1, u :: rest, c =>
    if lazyCond c then
      let batch := (u :: rest).take 10
      let c2 := batch.foldl (renderStep height) c
      let r := lazyDrainAux height fuel ((u :: rest).drop 10) c2
      (batch ++ r.1, r.2.1, r.2.2)
    else ([], u :: rest, c)

def lazyDrain {α : Type} (height : α → Int) (st : List α) (c : Container) :
    List α × List α × Container :=
  lazyDrainAux height st.length st c

/-! ## Interleaved search cycles (for the staleness claim)

A pending unit is tagged with the generation (which search cycle produced
it), its position, and the height of the node it renders.  The events are
the callback bodies that touch the stack: a stage-1 success callback resets
the stack to `[]` (line 275) before dispatching its msearch; a stage-2
msearch success callback pushes its generation's units onto whatever stack
is current and runs the eager drain (lines 415-423); a scroll event runs the
lazy drain (lines 238-242).  The source carries no generation token, so a
stale stage-2 completion pushes and drains like a fresh one. -/

structure TUnit where
  gen : Nat
  idx : Nat
  height : Int
deriving DecidableEq

inductive QEvent where
  | stage1Reset : QEvent
  | stage2Install (units : List TUnit) : QEvent
  | scroll : QEvent
deriving DecidableEq

structure QState where
  stack : List TUnit
  container : Container
  executed : List TUnit
deriving DecidableEq

def qstep (s : QState) (e : QEvent) : QState :=
  match e with
  | QEvent.stage1Reset => { s with stack := [] }
  | QEvent.stage2Install units =>
      let r := eagerDrain TUnit.height (s.stack ++ units) s.container
      { stack := r.2.1, container := r.2.2, executed := s.executed ++ r.1 }
  | QEvent.scroll =>
      let r := lazyDrain TUnit.height s.stack s.container
      { stack := r.2.1, container := r.2.2, executed := s.executed ++ r.1 }

def runTrace (s : QState) : List QEvent → QState
  | [] => s
  | e :: t => runTrace (qstep s e) t

/-- The units installed by the stage-2 completions of a trace. -/
def installedUnits : List QEvent → List TUnit
  | [] => []
  | QEvent.stage2Install us :: t => us ++ installedUnits t
  | _ :: t => installedUnits t

/-! ## Input/lifecycle controller (Result.jsx lines 225-271)

The synchronous part of `update(ev)`: initialization on first focus, the
re-entry guard `!this.initialized_ || target.value === this.value_`, list
clearing, the empty-input reset, and query dispatch.  `value_` starts
`undefined` (`none`), so the very first comparison with any string value is
false.  `dispatched` logs the queries issued to the engine, in order. -/

structure Messages where
  placeholder : String
  noneMsg : String
  oneMsg : String
  otherMsg : String
deriving DecidableEq

structure MState where
  inited : Bool
  value : Option String
  listLen : Nat
  metaText : String
  stack : List TUnit
  dispatched : List String
deriving DecidableEq

inductive UiEvent where
  | focus (text : String)
  | keyup (text : String)
deriving DecidableEq

def inputBranch (msg : Messages) (s : MState) (t : String) : MState :=
  if ¬ s.inited ∨ some t = s.value then s
  else
    let s1 : MState := { s with listLen := 0, value := some t }
    if t = "" then { s1 with metaText := msg.placeholder }
    else { s1 with dispatched := s1.dispatched ++ [t] }

def updateSync (msg : Messages) (s : MState) (ev : UiEvent) : MState :=
  match ev with
  | UiEvent.focus t =>
      if ¬ s.inited then { s with inited := true } else inputBranch msg s t
  | UiEvent.keyup t => inputBranch msg s t

/-- The stage-1 error branch (lines 269-271) evaluates
`"Error during elastic search query: " + error` where `error` is an
undeclared identifier (the callback parameter is named `err`), so it raises
a `ReferenceError` before anything is logged; it touches no state. -/
def stage1CompleteError (s : MState) : MState × Option String :=
  (s, some "ReferenceError")

/-! ## Concrete fixtures for counterexamples and witnesses -/

def msg0 : Messages :=
  { placeholder := "Type to search", noneMsg := "No results",
    oneMsg := "1 result", otherMsg := "# results" }

/-- A state with previous results on screen (three list entries) and a last
accepted query `"a"`. -/
def c4State : MState :=
  { inited := true, value := some "a", listLen := 3,
    metaText := "3 results", stack := [], dispatched := [] }

/-- An initialized state whose last accepted value is `"q"`. -/
def c9State : MState :=
  { inited := true, value := some "q", listLen := 2,
    metaText := "2 results", stack := [], dispatched := ["q"] }

/-- The older search's pending unit (generation 0). -/
def uA : TUnit := { gen := 0, idx := 0, height := 0 }

/-- The newer search's pending units (generation 1). -/
def uB0 : TUnit := { gen := 1, idx := 0, height := 0 }

def uB1 : TUnit := { gen := 1, idx := 1, height := 0 }

/-- Geometry with no visible slack below the fold but scrolled to the
bottom: the eager guard `offsetHeight >= scrollHeight - 16` is false while
the lazy guard `scrollTop + offsetHeight >= scrollHeight - 16` is true. -/
def cSt : Container := { scrollTop := 300, offsetHeight := 100, scrollHeight := 400 }

def staleStart : QState := { stack := [], container := cSt, executed := [] }

/-- A plain one-section batch for the aggregation witness. -/
def secX : SectionHit :=
  { title := "t", location := "l", text := "x", highlight := none }

/-! ## Theorems -/

/-- When some position at or before `n` holds a space, the loop exit index
(clamped as `substring` clamps it) is the largest such position. -/
theorem truncIndex_toNat_eq_findGreatest (s : List Char) :
    ∀ n : Nat, (∃ j, j ≤ n ∧ spaceAt s j) →
      (truncIndex s n).toNat = Nat.findGreatest (spaceAt s) n := by
  intro n
  induction n using Nat.strong_induction_on with
  | _ n ih =>
    match n with
    | 0 =>
      rintro ⟨j, hj, hsp⟩
      have h0 : spaceAt s 0 := by
        have hj0 : j = 0 := Nat.le_zero.mp hj
        rwa [hj0] at hsp
      simp only [truncIndex]
      rw [if_pos h0]
      rfl
    | 1 =>
      rintro ⟨j, hj, hsp⟩
      simp only [truncIndex]
      by_cases h1 : spaceAt s 1
      · rw [if_pos h1, Nat.findGreatest_succ,
          if_pos (show spaceAt s (0+1) from h1)]
        rfl
      · rw [if_neg h1, Nat.findGreatest_succ,
          if_neg (show ¬ spaceAt s (0+1) from h1)]
        rfl
    | (m+2) =>
      rintro ⟨j, hj, hsp⟩
      simp only [truncIndex]
      by_cases htop : spaceAt s (m+2)
      · rw [if_pos htop, Nat.findGreatest_succ,
          if_pos (show spaceAt s (m+1+1) from htop)]
        omega
      · have hjle : j ≤ m + 1 := by
          rcases Nat.eq_or_lt_of_le hj with h | h
          · exact absurd (h ▸ hsp) htop
          · omega
        rw [if_neg htop, Nat.findGreatest_succ,
          if_neg (show ¬ spaceAt s (m+1+1) from htop)]
        exact ih (m+1) (by omega) ⟨j, hjle, hsp⟩

/-- When no position at or before `n` holds a space, the loop bottoms out and
the clamped exit index is `0`. -/
theorem truncIndex_toNat_eq_zero (s : List Char) :
    ∀ n : Nat, (∀ j, j ≤ n → ¬ spaceAt s j) → (truncIndex s n).toNat = 0 := by
  intro n
  induction n using Nat.strong_induction_on with
  | _ n ih =>
    match n with
    | 0 =>
      intro h
      simp only [truncIndex]
      rw [if_neg (h 0 (le_refl 0))]
      rfl
    | 1 =>
      intro h
      simp only [truncIndex]
      rw [if_neg (h 1 (le_refl 1))]
      rfl
    | (m+2) =>
      intro h
      simp only [truncIndex]
      rw [if_neg (h (m+2) (le_refl _))]
      exact ih (m+1) (by omega) (fun j hj => h j (by omega))

/-- C7: `truncate` returns the string unchanged when its length is within the
budget; when the string is longer and a space occurs at or before index `n`,
it returns the prefix ending just before the space with the largest index
`≤ n`, suffixed with the ellipsis; in particular
`truncate "abcdefgh ijkl" 8 = "abcdefgh..."` and
`truncate "short" 10 = "short"`. -/
theorem truncate_spec :
    (∀ (s : List Char) (n : Nat), s.length ≤ n → truncate s n = s) ∧
    (∀ (s : List Char) (n : Nat), n < s.length →
      (∃ j, j ≤ n ∧ spaceAt s j) →
      truncate s n = s.take (Nat.findGreatest (spaceAt s) n) ++ ellipsis) ∧
    truncate "abcdefgh ijkl".toList 8 = "abcdefgh...".toList ∧
    truncate "short".toList 10 = "short".toList := by
  refine ⟨?_, ?_, by decide, by decide⟩
  · intro s n h
    simp [truncate, Nat.not_lt.mpr h]
  · intro s n hlen hex
    simp [truncate, hlen, truncIndex_toNat_eq_findGreatest s n hex]

/-- Witness instantiating `truncate_spec` at concrete inputs. -/
theorem truncate_spec_witness :
    truncate "ab cd".toList 3 =
      "ab cd".toList.take (Nat.findGreatest (spaceAt "ab cd".toList) 3) ++ ellipsis ∧
    truncate "hi".toList 5 = "hi".toList := by
  constructor
  · exact truncate_spec.2.1 "ab cd".toList 3 (by decide) ⟨2, by decide, by decide⟩
  · exact truncate_spec.1 "hi".toList 5 (by decide)

/-- C6 counterexample: `"abc"` with budget `2` contains no space at any index
at or before `2`; the claim predicts `"ab..."` (the first `n` characters plus
the ellipsis), but the code returns just `"..."`. -/
theorem truncate_nospace_counterexample :
    truncate "abc".toList 2 = "...".toList ∧
    truncate "abc".toList 2 ≠ "ab...".toList := by
  decide

/-- C6 amended: if the string is longer than the budget and no space occurs at
any index at or before `n`, the backward scan bottoms out at index `0` and the
result is the bare ellipsis (the empty prefix followed by `"..."`), not the
first `n` characters. -/
theorem truncate_nospace (s : List Char) (n : Nat) (hlen : n < s.length)
    (hno : ∀ j, j ≤ n → ¬ spaceAt s j) : truncate s n = ellipsis := by
  simp [truncate, hlen, truncIndex_toNat_eq_zero s n hno]

/-- Witness instantiating `truncate_nospace` at a concrete input. -/
theorem truncate_nospace_witness : truncate "abc".toList 2 = ellipsis :=
  truncate_nospace "abc".toList 2 (by decide) (by decide)

/-- `find?` over an appended list looks in the left part first. -/
theorem find?_append_helper {α : Type} (p : α → Bool) :
    ∀ (l₁ l₂ : List α), (l₁ ++ l₂).find? p =
      match l₁.find? p with
      | some x => some x
      | none => l₂.find? p := by
  intro l₁ l₂
  induction l₁ with
  | nil => rfl
  | cons a l ih =>
    simp only [List.cons_append, List.find?]
    cases hpa : p a
    · simpa using ih
    · rfl

/-- The teaser accumulator loop realises a last-match-wins policy: with every
section carrying a highlight object, the loop returns the first fragment of
the last matching section carrying highlighted text, or the initial
accumulator when no section matches. -/
theorem teaserLoop_last_wins (docTitle : String) :
    ∀ (sections : List SectionHit) (acc : Option String),
      (∀ s ∈ sections, s.highlight.isSome) →
      teaserLoop docTitle acc sections =
        Except.ok
          (match sections.reverse.find? (matchWithFragment docTitle) with
            | none => acc
            | some s => ((s.highlight.bind Highlight.text).getD []).head?) := by
  intro sections
  induction sections with
  | nil => intro acc _; rfl
  | cons s rest ih =>
    intro acc hall
    obtain ⟨hl, hhl⟩ :=
      Option.isSome_iff_exists.mp (hall s (List.mem_cons_self s rest))
    have hrest : ∀ x ∈ rest, x.highlight.isSome :=
      fun x hx => hall x (List.mem_cons_of_mem s hx)
    have hrev : (s :: rest).reverse = rest.reverse ++ [s] := by simp
    rw [hrev, find?_append_helper]
    by_cases ht : s.title = docTitle
    · cases htext : hl.text with
      | none =>
        have hp : matchWithFragment docTitle s = false := by
          simp [matchWithFragment, hhl, htext]
        simp only [teaserLoop, if_pos ht, hhl]
        rw [ih acc hrest]
        cases hfind : rest.reverse.find? (matchWithFragment docTitle) <;>
          simp [List.find?, hp, hfind, htext]
      | some frags =>
        have hbeq : (s.title == docTitle) = true := beq_iff_eq.mpr ht
        have hp : matchWithFragment docTitle s = true := by
          simp [matchWithFragment, hhl, htext, hbeq]
        simp only [teaserLoop, if_pos ht, hhl, htext]
        rw [ih frags.head? hrest]
        cases hfind : rest.reverse.find? (matchWithFragment docTitle) <;>
          simp [List.find?, hp, hfind, hhl, htext]
    · have hbeq : (s.title == docTitle) = false := beq_eq_false_iff_ne.mpr ht
      have hp : matchWithFragment docTitle s = false := by
        simp [matchWithFragment, hbeq]
      simp only [teaserLoop, if_neg ht]
      rw [ih acc hrest]
      cases hfind : rest.reverse.find? (matchWithFragment docTitle) <;>
        simp [List.find?, hp, hfind]

/-- C2 counterexample: a document hit titled `"Intro"` whose stage-2 batch
holds two sections titled `"Intro"`, the first carrying highlighted fragment
`"A"` and the second carrying highlighted fragment `"B"`.  The claim's
first-encountered-wins rule predicts teaser `"A"`; the code's accumulator is
overwritten by each matching section, so the second fragment `"B"` wins. -/
theorem teaser_first_wins_counterexample :
    pickTeaser "Intro" [introSecA, introSecB] = Except.ok (some "B") ∧
    pickTeaser "Intro" [introSecA, introSecB] ≠ Except.ok (some "A") := by
  refine ⟨rfl, ?_⟩
  intro h
  have h1 : pickTeaser "Intro" [introSecA, introSecB] = Except.ok (some "B") :=
    rfl
  rw [h1] at h
  have h2 : (some "B" : Option String) = some "A" := by injection h
  have h3 : "B" = "A" := by injection h2
  exact absurd h3 (by decide)

/-- C2 amended: the document teaser is selected by title equality; among
sections in the batch whose title equals the document's title and which carry
a highlighted text fragment, the LAST one encountered in the engine's
returned document order wins and its first fragment becomes the teaser; if no
such section exists the teaser stays the falsy empty string, so the document
unit has no teaser. -/
theorem pickTeaser_last_wins (docTitle : String) (sections : List SectionHit)
    (hall : ∀ s ∈ sections, s.highlight.isSome) :
    pickTeaser docTitle sections =
      Except.ok (lastMatchingTeaser docTitle sections) := by
  unfold pickTeaser lastMatchingTeaser
  rw [teaserLoop_last_wins docTitle sections (some "") hall]

/-- Witness instantiating `pickTeaser_last_wins` at a concrete batch. -/
theorem pickTeaser_last_wins_witness :
    pickTeaser "Intro" [introSecA, introSecB] =
      Except.ok (lastMatchingTeaser "Intro" [introSecA, introSecB]) :=
  pickTeaser_last_wins "Intro" [introSecA, introSecB] (by decide)

/-- A stage-2 section query can only fail with the modelled `TypeError`. -/
theorem sectionQueryFor_error_val (a : DocHit) (e : String)
    (hq : sectionQueryFor a = Except.error e) : e = "TypeError" := by
  cases ha : a.highlight with
  | none =>
    simp [sectionQueryFor, sizeHint, ha] at hq
    exact hq.symm
  | some hl => simp [sectionQueryFor, sizeHint, ha] at hq

/-- C10: the per-hit stage-1 aggregation presumes the `highlight` object is
present on each hit: the stage-2 size hint and the document title read
`hit.highlight.title` / `hit.highlight.text` without checking `highlight`
itself, so a stage-1 hit with no highlighted fields at all makes the
completion callback throw a `TypeError` instead of falling back to the plain
title and text — while a present-but-empty highlight object does fall back
to size 0 and the plain `_source.title`. -/
theorem highlight_presumed_present (hits : List DocHit) (h : DocHit)
    (hmem : h ∈ hits) (hnone : h.highlight = none) :
    buildMsearchBody hits = Except.error "TypeError" ∧
    sizeHint h = Except.error "TypeError" ∧
    docTitleStr h = Except.error "TypeError" ∧
    (∀ h2 : DocHit, h2.highlight = some { title := none, text := none } →
      sizeHint h2 = Except.ok 0 ∧ docTitleStr h2 = Except.ok (some h2.title)) := by
  refine ⟨?_, ?_, ?_, ?_⟩
  · induction hits with
    | nil => cases hmem
    | cons a rest ih =>
      rcases List.mem_cons.mp hmem with rfl | hmem2
      · simp [buildMsearchBody, sectionQueryFor, sizeHint, hnone]
      · simp only [buildMsearchBody]
        cases hq : sectionQueryFor a with
        | error e => simp [sectionQueryFor_error_val a e hq]
        | ok q => simp [ih hmem2]
  · simp [sizeHint, hnone]
  · simp [docTitleStr, hnone]
  · intro h2 hh2
    exact ⟨by simp [sizeHint, hh2], by simp [docTitleStr, hh2]⟩

/-- Witness instantiating `highlight_presumed_present` at a concrete hit
list holding one highlight-less hit. -/
theorem highlight_presumed_present_witness :
    buildMsearchBody
      [{ id := "d1", title := "T", location := "l", highlight := none }] =
      Except.error "TypeError" :=
  (highlight_presumed_present
    [{ id := "d1", title := "T", location := "l", highlight := none }]
    { id := "d1", title := "T", location := "l", highlight := none }
    (List.mem_singleton.mpr rfl) rfl).1

/-- Every document position contributes its document unit, whatever its
batch holds. -/
theorem doc_mem_aggFrom :
    ∀ (bs : List (List SectionHit)) (i0 k : Nat), k < bs.length →
      RUnit.doc (i0 + k) ∈ aggFrom i0 bs := by
  intro bs
  induction bs with
  | nil => intro i0 k h; simp at h
  | cons b rest ih =>
    intro i0 k h
    cases k with
    | zero => simp [aggFrom]
    | succ k2 =>
      have hk : k2 < rest.length := by simp at h; omega
      have hmem := ih (i0+1) k2 hk
      simp only [aggFrom, List.mem_cons, List.mem_append]
      right; right
      rw [show i0 + (k2+1) = (i0+1) + k2 from by omega]
      exact hmem

/-- C8: zero stage-1 document hits produce an empty msearch body, so the
stage-2 batched call is not issued and the render unit list is empty;
conversely a document with zero matching sections still emits its document
unit. -/
theorem zero_hits_no_stage2 :
    stage2Issued [] = false ∧
    buildMsearchBody [] = Except.ok [] ∧
    aggregate [] = [] ∧
    (∀ (bs : List (List SectionHit)) (i : Nat), i < bs.length →
      RUnit.doc i ∈ aggregate bs) := by
  refine ⟨rfl, rfl, rfl, ?_⟩
  intro bs i h
  have := doc_mem_aggFrom bs 0 i h
  simpa [aggregate] using this

/-- Witness instantiating `zero_hits_no_stage2` on a one-document run whose
batch is empty: the document unit is still emitted. -/
theorem zero_hits_no_stage2_witness :
    RUnit.doc 0 ∈ aggregate [([] : List SectionHit)] :=
  zero_hits_no_stage2.2.2.2 [[]] 0 (by decide)

/-- C9: after initialization, a keyup or focus event whose input text equals
the last accepted value is a complete no-op (the state, including list, meta
text, stack and dispatch log, is returned unchanged); consequently two
consecutive keyup events carrying the same accepted text dispatch exactly
one query. -/
theorem idempotent_reentry (msg : Messages) (s : MState) (t : String)
    (hinit : s.inited = true) (hval : s.value = some t) :
    updateSync msg s (UiEvent.keyup t) = s ∧
    updateSync msg s (UiEvent.focus t) = s ∧
    (∀ (s2 : MState) (t2 : String), s2.inited = true →
      s2.value ≠ some t2 → t2 ≠ "" →
      (updateSync msg (updateSync msg s2 (UiEvent.keyup t2))
          (UiEvent.keyup t2)).dispatched = s2.dispatched ++ [t2]) := by
  refine ⟨?_, ?_, ?_⟩
  · simp [updateSync, inputBranch, hinit, hval]
  · simp [updateSync, inputBranch, hinit, hval]
  · intro s2 t2 h1 h2 h3
    have h2s : some t2 ≠ s2.value := fun hx => h2 hx.symm
    simp [updateSync, inputBranch, h1, h2s, h3]

/-- Witness instantiating `idempotent_reentry`: a repeated `"q"` keyup on
`c9State` is a no-op, and a fresh text `"w"` pressed twice dispatches once. -/
theorem idempotent_reentry_witness :
    updateSync msg0 c9State (UiEvent.keyup "q") = c9State ∧
    (updateSync msg0 (updateSync msg0 c9State (UiEvent.keyup "w"))
        (UiEvent.keyup "w")).dispatched = c9State.dispatched ++ ["w"] := by
  have h := idempotent_reentry msg0 c9State "q" rfl rfl
  exact ⟨h.1, h.2.2 c9State "w" rfl (by decide) (by decide)⟩

/-- C4 counterexample: starting from `c4State` (three previous results on
screen), an accepted keystroke `"b"` clears the list before the stage-1
query is dispatched; when that query then fails, the error branch leaves the
already-cleared list at zero entries — previous results do NOT remain
visible — and raises a `ReferenceError` (the log statement reads the
undeclared identifier `error`) instead of logging. -/
theorem error_leaves_list_counterexample :
    c4State.listLen = 3 ∧
    (updateSync msg0 c4State (UiEvent.keyup "b")).listLen = 0 ∧
    stage1CompleteError (updateSync msg0 c4State (UiEvent.keyup "b")) =
      (updateSync msg0 c4State (UiEvent.keyup "b"), some "ReferenceError") := by
  refine ⟨rfl, by decide, rfl⟩

/-- C4 amended: when the stage-1 query of an accepted non-empty keystroke
completes with an error, the completion callback touches nothing — the
search metadata text is unchanged, no render units are installed, the list
is left as the callback found it — but the list was already cleared
synchronously when the keystroke was accepted, so previous results do not
remain visible; moreover the error branch raises a `ReferenceError` while
building its log message rather than logging. -/
theorem error_branch_amended (msg : Messages) (s : MState) (t : String)
    (hinit : s.inited = true) (hval : s.value ≠ some t) (hne : t ≠ "") :
    (updateSync msg s (UiEvent.keyup t)).listLen = 0 ∧
    (updateSync msg s (UiEvent.keyup t)).metaText = s.metaText ∧
    (updateSync msg s (UiEvent.keyup t)).stack = s.stack ∧
    stage1CompleteError (updateSync msg s (UiEvent.keyup t)) =
      (updateSync msg s (UiEvent.keyup t), some "ReferenceError") := by
  have hvs : some t ≠ s.value := fun hx => hval hx.symm
  refine ⟨?_, ?_, ?_, rfl⟩ <;> simp [updateSync, inputBranch, hinit, hvs, hne]

/-- Witness instantiating `error_branch_amended` at `c4State` with the
keystroke `"b"`. -/
theorem error_branch_amended_witness :
    (updateSync msg0 c4State (UiEvent.keyup "b")).listLen = 0 ∧
    (updateSync msg0 c4State (UiEvent.keyup "b")).metaText = c4State.metaText :=
  have h := error_branch_amended msg0 c4State "b" rfl (by decide) (by decide)
  ⟨h.1, h.2.1⟩

/-- When the lazy guard is false the loop exits immediately. -/
theorem lazyDrainAux_stops {α : Type} (height : α → Int) (fuel : Nat)
    (st : List α) (c : Container) (hc : lazyCond c = false) :
    lazyDrainAux height fuel st c = ([], st, c) := by
  cases fuel with
  | zero => rfl
  | succ fuel =>
    cases st with
    | nil => rfl
    | cons u rest => simp [lazyDrainAux, hc]

/-- One iteration of the lazy loop on a non-empty stack with the guard
true: splice ten units, execute them, continue on the rest. -/
theorem lazyDrainAux_step {α : Type} (height : α → Int) (fuel : Nat)
    (st : List α) (c : Container) (hne : st ≠ []) (hc : lazyCond c = true) :
    lazyDrainAux height (fuel+1) st c =
      (st.take 10 ++
        (lazyDrainAux height fuel (st.drop 10)
          ((st.take 10).foldl (renderStep height) c)).1,
       (lazyDrainAux height fuel (st.drop 10)
          ((st.take 10).foldl (renderStep height) c)).2.1,
       (lazyDrainAux height fuel (st.drop 10)
          ((st.take 10).foldl (renderStep height) c)).2.2) := by
  cases st with
  | nil => exact absurd rfl hne
  | cons u rest => simp [lazyDrainAux, hc]

/-- The lazy loop only moves units from the stack to the executed output:
executed output followed by the remaining stack is the original stack. -/
theorem lazyDrainAux_append {α : Type} (height : α → Int) :
    ∀ (fuel : Nat) (st : List α) (c : Container), st.length ≤ fuel →
      (lazyDrainAux height fuel st c).1 ++ (lazyDrainAux height fuel st c).2.1
        = st := by
  intro fuel
  induction fuel with
  | zero =>
    intro st c h
    have hnil : st = [] := List.eq_nil_of_length_eq_zero (by omega)
    subst hnil
    rfl
  | succ fuel ih =>
    intro st c h
    cases st with
    | nil => rfl
    | cons u rest =>
      by_cases hc : lazyCond c
      · rw [lazyDrainAux_step height fuel (u :: rest) c (by simp) hc]
        have hlen : ((u :: rest).drop 10).length ≤ fuel := by
          simp only [List.length_drop, List.length_cons]
          simp only [List.length_cons] at h
          omega
        rw [List.append_assoc, ih _ _ hlen, List.take_append_drop]
      · have hcf : lazyCond c = false := by simpa using hc
        rw [lazyDrainAux_stops height (fuel+1) (u :: rest) c hcf]
        rfl

theorem lazyDrain_append {α : Type} (height : α → Int) (st : List α)
    (c : Container) :
    (lazyDrain height st c).1 ++ (lazyDrain height st c).2.1 = st :=
  lazyDrainAux_append height st.length st c (le_refl _)

/-- The eager loop only moves units from the head of the stack to the
executed output. -/
theorem eagerDrain_append {α : Type} (height : α → Int) :
    ∀ (st : List α) (c : Container),
      (eagerDrain height st c).1 ++ (eagerDrain height st c).2.1 = st := by
  intro st
  induction st with
  | nil => intro c; rfl
  | cons u rest ih =>
    intro c
    by_cases hc : eagerCond c
    · simp only [eagerDrain, if_pos hc, List.cons_append]
      rw [ih]
    · simp [eagerDrain, if_neg hc]

/-- C3 counterexample: a queue of 12 pending units whose rendered nodes add
no height, in a container with no remaining visible slack.  The lazy drain's
`while` loop re-checks the guard after each splice of 10, the guard still
holds, so the single scroll event drains all 12 units and leaves 0 pending —
not exactly 10 leaving 2 as the claim states. -/
theorem lazy_batch_counterexample :
    (lazyDrain id (List.replicate 12 (0 : Int)) ⟨0, 100, 100⟩).1.length = 12 ∧
    (lazyDrain id (List.replicate 12 (0 : Int)) ⟨0, 100, 100⟩).2.1 = [] ∧
    ¬ ((lazyDrain id (List.replicate 12 (0 : Int)) ⟨0, 100, 100⟩).1.length = 10 ∧
       (lazyDrain id (List.replicate 12 (0 : Int)) ⟨0, 100, 100⟩).2.1.length = 2) := by
  decide

/-- C3 amended: on a scroll event the lazy drain removes and executes units
in batches of 10, re-checking the near-bottom guard before each batch, so a
single event may drain more than 10; for a queue of 12 pending units with
the guard true on arrival and false after the first batch of 10 is rendered,
the event removes and renders exactly the first 10 units, leaving the last 2
pending. -/
theorem lazy_batch_amended {α : Type} (height : α → Int) (st : List α)
    (c : Container) (hlen : st.length = 12) (hc : lazyCond c = true)
    (hc2 : lazyCond ((st.take 10).foldl (renderStep height) c) = false) :
    (lazyDrain height st c).1 = st.take 10 ∧
    (lazyDrain height st c).2.1 = st.drop 10 := by
  have hne : st ≠ [] := by
    intro h
    rw [h] at hlen
    simp at hlen
  have h12 : st.length = 11 + 1 := by omega
  simp only [lazyDrain, h12]
  rw [lazyDrainAux_step height 11 st c hne hc,
    lazyDrainAux_stops height 11 (st.drop 10)
      ((st.take 10).foldl (renderStep height) c) hc2]
  constructor <;> simp

/-- Witness instantiating `lazy_batch_amended`: 12 units of height 10 in a
100-pixel container scrolled to the bottom. -/
theorem lazy_batch_amended_witness :
    (lazyDrain id (List.replicate 12 (10 : Int)) ⟨0, 100, 100⟩).1 =
      (List.replicate 12 (10 : Int)).take 10 ∧
    (lazyDrain id (List.replicate 12 (10 : Int)) ⟨0, 100, 100⟩).2.1 =
      (List.replicate 12 (10 : Int)).drop 10 :=
  lazy_batch_amended id (List.replicate 12 (10 : Int)) ⟨0, 100, 100⟩
    (by decide) (by decide) (by decide)

/-- Anything on the executed log or the stack after running a trace was
already executed, was already on the stack, or was installed by one of the
trace's stage-2 completions. -/
theorem run_confine :
    ∀ (post : List QEvent) (s : QState) (u : TUnit),
      (u ∈ (runTrace s post).executed ∨ u ∈ (runTrace s post).stack) →
      u ∈ s.executed ∨ u ∈ s.stack ∨ u ∈ installedUnits post := by
  intro post
  induction post with
  | nil =>
    intro s u h
    rcases h with h | h
    · exact Or.inl h
    · exact Or.inr (Or.inl h)
  | cons e t ih =>
    intro s u h
    have hstep := ih (qstep s e) u h
    cases e with
    | stage1Reset =>
      rcases hstep with h1 | h1 | h1
      · exact Or.inl h1
      · simp [qstep] at h1
      · exact Or.inr (Or.inr (by simpa [installedUnits] using h1))
    | stage2Install us =>
      have happ := eagerDrain_append TUnit.height (s.stack ++ us) s.container
      simp only [qstep] at hstep
      have hmv : ∀ v : TUnit,
          v ∈ (eagerDrain TUnit.height (s.stack ++ us) s.container).1 ∨
          v ∈ (eagerDrain TUnit.height (s.stack ++ us) s.container).2.1 →
          v ∈ s.stack ∨ v ∈ us := by
        intro v hv
        have : v ∈ (eagerDrain TUnit.height (s.stack ++ us) s.container).1 ++
            (eagerDrain TUnit.height (s.stack ++ us) s.container).2.1 := by
          rcases hv with hv | hv
          · exact List.mem_append_left _ hv
          · exact List.mem_append_right _ hv
        rw [happ] at this
        exact List.mem_append.mp this
      rcases hstep with h1 | h1 | h1
      · rcases List.mem_append.mp h1 with h2 | h2
        · exact Or.inl h2
        · rcases hmv u (Or.inl h2) with h3 | h3
          · exact Or.inr (Or.inl h3)
          · exact Or.inr (Or.inr (by
              simp only [installedUnits]
              exact List.mem_append_left _ h3))
      · rcases hmv u (Or.inr h1) with h3 | h3
        · exact Or.inr (Or.inl h3)
        · exact Or.inr (Or.inr (by
            simp only [installedUnits]
            exact List.mem_append_left _ h3))
      · exact Or.inr (Or.inr (by
          simp only [installedUnits]
          exact List.mem_append_right _ h1))
    | scroll =>
      have happ := lazyDrain_append TUnit.height s.stack s.container
      simp only [qstep] at hstep
      have hmv : ∀ v : TUnit,
          v ∈ (lazyDrain TUnit.height s.stack s.container).1 ∨
          v ∈ (lazyDrain TUnit.height s.stack s.container).2.1 →
          v ∈ s.stack := by
        intro v hv
        have : v ∈ (lazyDrain TUnit.height s.stack s.container).1 ++
            (lazyDrain TUnit.height s.stack s.container).2.1 := by
          rcases hv with hv | hv
          · exact List.mem_append_left _ hv
          · exact List.mem_append_right _ hv
        rwa [happ] at this
      rcases hstep with h1 | h1 | h1
      · rcases List.mem_append.mp h1 with h2 | h2
        · exact Or.inl h2
        · exact Or.inr (Or.inl (hmv u (Or.inl h2)))
      · exact Or.inr (Or.inl (hmv u (Or.inr h1)))
      · exact Or.inr (Or.inr (by simpa [installedUnits] using h1))

/-- C5 counterexample: search A (generation 0) and search B (generation 1)
overlap.  Both stage-1 completions reset the stack; B's stage-2 completion
installs `[uB0, uB1]`; then A's stale stage-2 completion arrives late and
pushes `uA` onto B's queue; the next scroll event executes `uA`.  So after
the newer search's completion installed its unit sequence, a unit of the
older search was still executed, refuting the claim. -/
theorem stale_drained_counterexample :
    (runTrace staleStart
      [QEvent.stage1Reset, QEvent.stage1Reset,
       QEvent.stage2Install [uB0, uB1]]).executed = [] ∧
    (runTrace staleStart
      [QEvent.stage1Reset, QEvent.stage1Reset,
       QEvent.stage2Install [uB0, uB1],
       QEvent.stage2Install [uA], QEvent.scroll]).executed = [uB0, uB1, uA] ∧
    uA.gen = 0 ∧ uB0.gen = 1 := by
  decide

/-- C5 amended: queue replacement discards wholesale — after a stage-1 reset
every unit subsequently executed either was already executed or is installed
by a stage-2 completion arriving after the reset.  The claim's guarantee
fails only because a stale stage-2 completion can still install the older
search's units after the newer search's reset, and those are drained like
fresh ones (the source carries no generation token). -/
theorem stale_units_amended (post : List QEvent) (s : QState) (u : TUnit)
    (hu : u ∈ (runTrace { s with stack := [] } post).executed) :
    u ∈ s.executed ∨ u ∈ installedUnits post := by
  have h := run_confine post { s with stack := [] } u (Or.inl hu)
  rcases h with h | h | h
  · exact Or.inl h
  · simp at h
  · exact Or.inr h

/-- Witness instantiating `stale_units_amended` on a two-event trace. -/
theorem stale_units_amended_witness :
    uB0 ∈ ([] : List TUnit) ∨
    uB0 ∈ installedUnits [QEvent.stage2Install [uB0], QEvent.scroll] :=
  stale_units_amended [QEvent.stage2Install [uB0], QEvent.scroll]
    { stack := [], container := cSt, executed := [] } uB0 (by decide)

/-- Splitting a `flatMap` over `range (n+1)` into its head call and the
shifted tail. -/
theorem range_flatMap_succ (n : Nat) (f : Nat → List RUnit) :
    (List.range (n+1)).flatMap f =
      f 0 ++ (List.range n).flatMap (fun k => f (k+1)) := by
  rw [List.range_succ_eq_map, List.flatMap_cons, List.flatMap_map]

/-- The aggregation loop equals the spec-side description, generalised over
the starting document position. -/
theorem aggFrom_eq_spec :
    ∀ (bs : List (List SectionHit)) (i0 : Nat),
      aggFrom i0 bs = (List.range bs.length).flatMap
        (fun k => RUnit.doc (i0 + k) ::
          (List.range ((bs.getD k []).length)).map (RUnit.sec (i0 + k))) := by
  intro bs
  induction bs with
  | nil => intro i0; rfl
  | cons b rest ih =>
    intro i0
    have hfe : (fun k => RUnit.doc (i0 + (k+1)) ::
          (List.range (((b :: rest).getD (k+1) []).length)).map
            (RUnit.sec (i0 + (k+1)))) =
        (fun k => RUnit.doc ((i0+1) + k) ::
          (List.range ((rest.getD k []).length)).map
            (RUnit.sec ((i0+1) + k))) := by
      funext k
      rw [show i0 + (k+1) = (i0+1) + k from by omega]
      rfl
    simp only [aggFrom, List.length_cons]
    rw [range_flatMap_succ, hfe, ← ih (i0+1)]
    simp

/-- C1 component: the code's aggregation equals the spec's description. -/
theorem aggregate_eq_spec (bs : List (List SectionHit)) :
    aggregate bs = aggregateSpec bs := by
  rw [aggregate, aggFrom_eq_spec bs 0, aggregateSpec]
  simp

/-- Exactly one document unit is emitted per document position. -/
theorem count_doc_aggFrom :
    ∀ (bs : List (List SectionHit)) (i0 i : Nat),
      (aggFrom i0 bs).count (RUnit.doc i) =
        if i0 ≤ i ∧ i < i0 + bs.length then 1 else 0 := by
  intro bs
  induction bs with
  | nil =>
    intro i0 i
    simp only [aggFrom, List.count_nil, List.length_nil]
    rw [if_neg (by omega)]
  | cons b rest ih =>
    intro i0 i
    have hS : ((List.range b.length).map (RUnit.sec i0)).count (RUnit.doc i)
        = 0 := by
      rw [List.count_eq_zero]
      intro hmem
      rcases List.mem_map.mp hmem with ⟨x, _, heq⟩
      simp at heq
    simp only [aggFrom, List.count_cons, List.count_append, List.length_cons,
      hS, ih (i0+1) i, beq_iff_eq, RUnit.doc.injEq]
    split_ifs <;> omega

/-- Every section unit sits strictly after its owning document unit and
after its batch predecessors, generalised over the starting position. -/
theorem aggFrom_sec_pos :
    ∀ (bs : List (List SectionHit)) (i0 p i j : Nat),
      (aggFrom i0 bs)[p]? = some (RUnit.sec i j) →
      (∃ q, q < p ∧ (aggFrom i0 bs)[q]? = some (RUnit.doc i)) ∧
      (∀ j2, j2 < j →
        ∃ q, q < p ∧ (aggFrom i0 bs)[q]? = some (RUnit.sec i j2)) := by
  intro bs
  induction bs with
  | nil => intro i0 p i j h; simp [aggFrom] at h
  | cons b rest ih =>
    intro i0 p i j h
    cases p with
    | zero => simp [aggFrom] at h
    | succ p2 =>
      have h2 : ((List.range b.length).map (RUnit.sec i0) ++
          aggFrom (i0+1) rest)[p2]? = some (RUnit.sec i j) := by
        simpa [aggFrom] using h
      by_cases hlt : p2 < ((List.range b.length).map (RUnit.sec i0)).length
      · have hSp := h2
        rw [List.getElem?_append_left hlt] at hSp
        have hrange : p2 < b.length := by simpa using hlt
        rw [List.getElem?_map, List.getElem?_range hrange] at hSp
        simp at hSp
        obtain ⟨hEq1, hEq2⟩ := hSp
        subst hEq1
        subst hEq2
        constructor
        · refine ⟨0, by omega, ?_⟩
          simp [aggFrom]
        · intro j2 hj2
          refine ⟨j2+1, by omega, ?_⟩
          have hj2b : j2 < b.length := by omega
          simp only [aggFrom, List.getElem?_cons_succ]
          rw [List.getElem?_append_left (by simpa using hj2b),
            List.getElem?_map, List.getElem?_range hj2b]
          rfl
      · push_neg at hlt
        have hA : (aggFrom (i0+1) rest)[p2 -
            ((List.range b.length).map (RUnit.sec i0)).length]? =
            some (RUnit.sec i j) := by
          rw [List.getElem?_append_right hlt] at h2
          exact h2
        obtain ⟨⟨q, hq, hqv⟩, hsecs⟩ := ih (i0+1) _ i j hA
        have hSlen : ((List.range b.length).map (RUnit.sec i0)).length
            = b.length := by simp
        rw [hSlen] at hq hlt hA
        constructor
        · refine ⟨q + b.length + 1, by omega, ?_⟩
          simp only [aggFrom, List.getElem?_cons_succ]
          rw [List.getElem?_append_right (by rw [hSlen]; omega),
            show q + b.length -
              ((List.range b.length).map (RUnit.sec i0)).length = q from by
                rw [hSlen]; omega]
          exact hqv
        · intro j2 hj2
          obtain ⟨q2, hq2, hq2v⟩ := hsecs j2 hj2
          refine ⟨q2 + b.length + 1, by omega, ?_⟩
          simp only [aggFrom, List.getElem?_cons_succ]
          rw [List.getElem?_append_right (by rw [hSlen]; omega),
            show q2 + b.length -
              ((List.range b.length).map (RUnit.sec i0)).length = q2 from by
                rw [hSlen]; omega]
          exact hq2v

/-- Positions in an executed prefix agree with the underlying queue. -/
theorem prefix_pos_lift (L ex rest : List RUnit) (hsplit : ex ++ rest = L)
    (p : Nat) (x : RUnit) (hp : ex[p]? = some x) : L[p]? = some x := by
  have hplen : p < ex.length := by
    rcases List.getElem?_eq_some_iff.mp hp with ⟨hw, _⟩
    exact hw
  rw [← hsplit, List.getElem?_append_left hplen]
  exact hp

/-- A queue position earlier than some executed position is itself in the
executed prefix. -/
theorem prefix_pos_transport (L ex rest : List RUnit)
    (hsplit : ex ++ rest = L) (p q : Nat) (x y : RUnit)
    (hp : ex[p]? = some x) (hq : q < p) (hL : L[q]? = some y) :
    ex[q]? = some y := by
  have hplen : p < ex.length := by
    rcases List.getElem?_eq_some_iff.mp hp with ⟨hw, _⟩
    exact hw
  have hqlen : q < ex.length := lt_trans hq hplen
  rw [← hsplit, List.getElem?_append_left hqlen] at hL
  exact hL

/-- C1: the aggregation emits, for each document hit in stage-1 order,
exactly one document unit followed by that document's section units in
stage-2 response order (the code's unit sequence equals the spec-side
description, the document unit of position `i` occurs exactly once, and
every section unit sits strictly after its owning document unit and its
batch predecessors); and both drain paths execute a prefix of the queue in
queue order, so a section unit is never executed before its owning document
unit. -/
theorem aggregation_order (bs : List (List SectionHit))
    (height : RUnit → Int) (c : Container) :
    aggregate bs = aggregateSpec bs ∧
    (∀ i : Nat, (aggregate bs).count (RUnit.doc i) =
      if i < bs.length then 1 else 0) ∧
    (∀ (p i j : Nat), (aggregate bs)[p]? = some (RUnit.sec i j) →
      (∃ q, q < p ∧ (aggregate bs)[q]? = some (RUnit.doc i)) ∧
      (∀ j2, j2 < j →
        ∃ q, q < p ∧ (aggregate bs)[q]? = some (RUnit.sec i j2))) ∧
    ((eagerDrain height (aggregate bs) c).1 ++
      (eagerDrain height (aggregate bs) c).2.1 = aggregate bs) ∧
    ((lazyDrain height (aggregate bs) c).1 ++
      (lazyDrain height (aggregate bs) c).2.1 = aggregate bs) ∧
    (∀ (p i j : Nat),
      (eagerDrain height (aggregate bs) c).1[p]? = some (RUnit.sec i j) →
      ∃ q, q < p ∧
        (eagerDrain height (aggregate bs) c).1[q]? = some (RUnit.doc i)) ∧
    (∀ (p i j : Nat),
      (lazyDrain height (aggregate bs) c).1[p]? = some (RUnit.sec i j) →
      ∃ q, q < p ∧
        (lazyDrain height (aggregate bs) c).1[q]? = some (RUnit.doc i)) := by
  have hsec := fun p i j h => aggFrom_sec_pos bs 0 p i j h
  have heag := eagerDrain_append height (aggregate bs) c
  have hlaz := lazyDrain_append height (aggregate bs) c
  refine ⟨aggregate_eq_spec bs, ?_, hsec, heag, hlaz, ?_, ?_⟩
  · intro i
    have h := count_doc_aggFrom bs 0 i
    rw [aggregate, h]
    congr 1
    simp [Nat.zero_le]
  · intro p i j hp
    have hLp := prefix_pos_lift (aggregate bs) _ _ heag p _ hp
    obtain ⟨q, hq, hLq⟩ := (hsec p i j hLp).1
    exact ⟨q, hq, prefix_pos_transport (aggregate bs) _ _ heag p q _ _ hp hq hLq⟩
  · intro p i j hp
    have hLp := prefix_pos_lift (aggregate bs) _ _ hlaz p _ hp
    obtain ⟨q, hq, hLq⟩ := (hsec p i j hLp).1
    exact ⟨q, hq, prefix_pos_transport (aggregate bs) _ _ hlaz p q _ _ hp hq hLq⟩

/-- Witness instantiating `aggregation_order`: a one-document run with one
section; the section unit at position 1 is preceded by its document unit. -/
theorem aggregation_order_witness :
    ∃ q, q < 1 ∧ (aggregate [[secX]])[q]? = some (RUnit.doc 0) :=
  ((aggregation_order [[secX]] (fun _ => 0) ⟨0, 0, 0⟩).2.2.1 1 0 0
    (by decide)).1

end MkdocsResult
